import Mathlib

/-!
Shallow embedding of the OneDrive writer (`core/src/services/onedrive/writer.rs`)
of the opendal repository.

Payload bytes are modelled as `List Nat`.  The backend is modelled by an
oracle (`BackendModel`) giving the HTTP status of the i-th request issued
during one `write` call, together with the (already-deserialized) body of a
successful upload-session creation response; `none` there models a response
body that `serde_json` fails to deserialize.  Each operation returns the
trace of requests it issued, in order, together with its result.
-/

namespace OneDrive

/-- A byte-buffer payload (`bytes::Bytes` in the source). -/
abbrev Bytes := List Nat

/-- `OneDriveWriter::MAX_SIMPLE_SIZE`: 4 MiB. -/
def MAX_SIMPLE_SIZE : Nat := 4 * 1024 * 1024

/-- `OneDriveWriter::CHUNK_SIZE_FACTOR`: 320 KiB. -/
def CHUNK_SIZE_FACTOR : Nat := 327680

/-- `http::StatusCode::OK`. -/
def statusOK : Nat := 200

/-- `http::StatusCode::CREATED`. -/
def statusCREATED : Nat := 201

/-- `http::StatusCode::ACCEPTED`. -/
def statusACCEPTED : Nat := 202

/-- Modelled from the spec: `OpWrite` (module `crate::ops`, not under `src/`).
The spec's WriteContext carries a target path, an optional declared content
type and an optional total size; only `content_type()` is used by the writer. -/
structure OpWrite where
  contentType : Option String
  size : Option Nat
deriving DecidableEq, Repr

/-- The `OneDriveWriter` struct.  Its `backend: OnedriveBackend` field lives in
a file not under `src/`, so the writer is generic over the backend value it
stores; requests it issues are captured by the trace instead. -/
structure OneDriveWriter (β : Type) where
  backend : β
  op : OpWrite
  path : List Char

/-- Body of the upload-session creation request
(`OneDriveUploadSessionCreationRequestBody` / `Item` in the source). -/
structure SessionCreationBody where
  odataType : String
  conflictBehavior : String
  name : List Char
deriving DecidableEq, Repr

/-- `OneDriveUploadSessionCreationRequestBody::new`. -/
def sessionCreationRequestBody (name : List Char) : SessionCreationBody :=
  { odataType := "microsoft.graph.driveItemUploadableProperties"
    conflictBehavior := "replace"
    name := name }

/-- `OneDriveUploadSessionCreationResponseBody`. -/
structure SessionResponse where
  uploadUrl : String
  expirationDateTime : String
deriving DecidableEq, Repr

/-- One request issued against the backend capability: `onedrive_put`,
`onedrive_post` (session creation; the URL is built from the path by
`percent_encode_path`, which lives outside `src/`, so the raw path is
recorded), or `onedrive_chunked_upload`. -/
inductive Request where
  | put (path : List Char) (size : Option Nat) (contentType : Option String) (body : Bytes)
  | post (path : List Char) (body : SessionCreationBody)
  | chunkUpload (uploadUrl : String) (offset : Nat) (chunkEnd : Nat) (totalLen : Nat)
      (body : Bytes)
deriving DecidableEq, Repr

/-- Errors the writer can return.  `backend s` is `parse_error(resp)` applied
to a response with status `s`; `unexpected` is the `ErrorKind::Unexpected`
raised when no file name is extractable; `jsonDeserialize` models
`new_json_deserialize_error`. -/
inductive WriteError where
  | backend (status : Nat)
  | unexpected (msg : String)
  | jsonDeserialize
deriving DecidableEq, Repr

/-- The backend oracle for one `write` call: `status i` is the HTTP status of
the i-th request issued, and `sessionBody` is the deserialized body of a
successful session-creation response (`none`: deserialization fails). -/
structure BackendModel where
  status : Nat → Nat
  sessionBody : Option SessionResponse

/-- Rust `str::split(c)` on a character pattern: always yields at least one
(possibly empty) segment. -/
def splitChar (c : Char) : List Char → List (List Char)
  | [] => [[]]
  | a :: rest =>
    if a = c then [] :: splitChar c rest
    else
      match splitChar c rest with
      | [] => [[a]]
      | x :: xs => (a :: x) :: xs

/-- `self.path.split('/').last()` in `create_upload_session`. -/
def fileNameFromPath (path : List Char) : Option (List Char) :=
  (splitChar '/' path).getLast?

/-- Rust `slice::chunks(n)` (for `n > 0`): splits a list into consecutive
chunks of `n` elements, the last chunk possibly shorter; an empty list yields
no chunks. -/
def chunksOf (n : Nat) : List α → List (List α)
  | [] => []
  | a :: rest => (a :: rest.take (n - 1)) :: chunksOf n (rest.drop (n - 1))
termination_by l => l.length
decreasing_by
  simp only [List.length_drop, List.length_cons]
  omega

/-- `OneDriveWriter::create_upload_session`.  `i` is the index of the next
request in this write's trace. -/
def create_upload_session (path : List Char) (b : BackendModel) (i : Nat) :
    List Request × Except WriteError SessionResponse :=
  match fileNameFromPath path with
  | none => ([], .error (.unexpected "connection string must have AccountName"))
  | some fileName =>
    let req := Request.post path (sessionCreationRequestBody fileName)
    if b.status i = statusOK then
      match b.sessionBody with
      | some r => ([req], .ok r)
      | none => ([req], .error .jsonDeserialize)
    else
      ([req], .error (.backend (b.status i)))

/-- The status set accepted for one chunk upload
(`ACCEPTED | CREATED | OK` in the source's match). -/
def chunkUploadAccepted (s : Nat) : Bool :=
  s == statusACCEPTED || s == statusCREATED || s == statusOK

/-- The `for chunk in iter` loop of `write_chunked`: uploads the chunks in
order starting at byte `offset`, consuming statuses from request index `i`
on; stops at the first non-accepted status. -/
def upload_chunks (uploadUrl : String) (totalBytes : Bytes) (b : BackendModel) :
    List Bytes → Nat → Nat → List Request × Except WriteError Unit
  | [], _, _ => ([], .ok ())
  | chunk :: rest, offset, i =>
    let e0 := offset + CHUNK_SIZE_FACTOR
    let e := if e0 > totalBytes.length then totalBytes.length else e0
    let totalLen := totalBytes.length
    let chunkEnd := e - 1
    let req := Request.chunkUpload uploadUrl offset chunkEnd totalLen chunk
    if chunkUploadAccepted (b.status i) then
      let next := upload_chunks uploadUrl totalBytes b rest (offset + CHUNK_SIZE_FACTOR) (i + 1)
      (req :: next.1, next.2)
    else
      ([req], .error (.backend (b.status i)))

/-- `OneDriveWriter::write_chunked`. -/
def write_chunked (w : OneDriveWriter β) (totalBytes : Bytes) (b : BackendModel) :
    List Request × Except WriteError Unit :=
  match create_upload_session w.path b 0 with
  | (tr, .error e) => (tr, .error e)
  | (tr, .ok sessionResponse) =>
    let r := upload_chunks sessionResponse.uploadUrl totalBytes b
      (chunksOf CHUNK_SIZE_FACTOR totalBytes) 0 1
    (tr ++ r.1, r.2)

/-- `OneDriveWriter::write_simple`. -/
def write_simple (w : OneDriveWriter β) (bs : Bytes) (b : BackendModel) :
    List Request × Except WriteError Unit :=
  let req := Request.put w.path (some bs.length) w.op.contentType bs
  if b.status 0 = statusCREATED ∨ b.status 0 = statusOK then
    ([req], .ok ())
  else
    ([req], .error (.backend (b.status 0)))

/-- `<OneDriveWriter as oio::Write>::write`. -/
def OneDriveWriter.write (w : OneDriveWriter β) (bs : Bytes) (b : BackendModel) :
    List Request × Except WriteError Unit :=
  if bs.length ≤ MAX_SIMPLE_SIZE then write_simple w bs b else write_chunked w bs b

/-- `<OneDriveWriter as oio::Write>::abort`: `Ok(())`, the writer untouched,
no request issued. -/
def OneDriveWriter.abort (w : OneDriveWriter β) :
    OneDriveWriter β × List Request × Except WriteError Unit :=
  (w, [], .ok ())

/-- `<OneDriveWriter as oio::Write>::close`: `Ok(())`, the writer untouched,
no request issued. -/
def OneDriveWriter.close (w : OneDriveWriter β) :
    OneDriveWriter β × List Request × Except WriteError Unit :=
  (w, [], .ok ())

/-- Payloads of the chunk-upload requests of a trace, in order. -/
def chunkBodies (tr : List Request) : List Bytes :=
  tr.filterMap fun r =>
    match r with
    | .chunkUpload _ _ _ _ body => some body
    | _ => none

/-- (offset, inclusive end, declared total length) of the chunk-upload
requests of a trace, in order. -/
def chunkRanges (tr : List Request) : List (Nat × Nat × Nat) :=
  tr.filterMap fun r =>
    match r with
    | .chunkUpload _ o e t _ => some (o, e, t)
    | _ => none

/-- The chunk-upload requests the loop would issue for a given chunk list if
every response were accepted (the framing is independent of the statuses). -/
def frameChunks (uploadUrl : String) (totalLen : Nat) : List Bytes → Nat → List Request
  | [], _ => []
  | chunk :: rest, offset =>
    let e0 := offset + CHUNK_SIZE_FACTOR
    let e := if e0 > totalLen then totalLen else e0
    Request.chunkUpload uploadUrl offset (e - 1) totalLen chunk
      :: frameChunks uploadUrl totalLen rest (offset + CHUNK_SIZE_FACTOR)

/-- A concrete writer over a trivial backend, used to evaluate the model. -/
def sampleWriter : OneDriveWriter Unit :=
  { backend := (), op := { contentType := none, size := none }, path := ['d', '/', 'f'] }

/-- A concrete writer whose target path is empty. -/
def emptyPathWriter : OneDriveWriter Unit :=
  { backend := (), op := { contentType := none, size := none }, path := [] }

/-- An oracle answering 200 OK to every request. -/
def okBackend : BackendModel :=
  { status := fun _ => 200
    sessionBody := some { uploadUrl := "session-url", expirationDateTime := "2026-01-01" } }

/-- An oracle answering 500 to every request. -/
def rejectBackend : BackendModel :=
  { status := fun _ => 500
    sessionBody := some { uploadUrl := "session-url", expirationDateTime := "2026-01-01" } }

/-- An oracle whose session creation succeeds and whose first chunk upload
is rejected. -/
def chunkFailBackend : BackendModel :=
  { status := fun i => if i = 0 then 200 else 500
    sessionBody := some { uploadUrl := "session-url", expirationDateTime := "2026-01-01" } }

/-! Helper lemmas about the embedded functions. -/

theorem splitChar_ne_nil (c : Char) (s : List Char) : splitChar c s ≠ [] := by
  induction s with
  | nil => simp [splitChar]
  | cons a rest ih =>
    by_cases h : a = c
    · simp [splitChar, h]
    · simp only [splitChar, if_neg h]
      cases hs : splitChar c rest with
      | nil => simp
      | cons x xs => simp

theorem fileNameFromPath_isSome (path : List Char) :
    ∃ name, fileNameFromPath path = some name := by
  have h := splitChar_ne_nil '/' path
  unfold fileNameFromPath
  cases hs : (splitChar '/' path).getLast? with
  | some name => exact ⟨name, rfl⟩
  | none => exact absurd (List.getLast?_eq_none_iff.mp hs) h

theorem chunksOf_nil (n : Nat) : chunksOf n ([] : List α) = [] := by
  simp [chunksOf]

theorem chunksOf_cons (n : Nat) (a : α) (rest : List α) :
    chunksOf n (a :: rest) = (a :: rest.take (n - 1)) :: chunksOf n (rest.drop (n - 1)) := by
  simp [chunksOf]

theorem chunksOf_flatten (n : Nat) : ∀ (l : List α), (chunksOf n l).flatten = l
  | [] => by simp [chunksOf]
  | a :: rest => by
    have ih := chunksOf_flatten n (rest.drop (n - 1))
    rw [chunksOf_cons, List.flatten_cons, ih, List.cons_append, List.take_append_drop]
termination_by l => l.length
decreasing_by simp only [List.length_drop, List.length_cons]; omega

theorem chunksOf_length (n : Nat) (hn : 0 < n) :
    ∀ (l : List α), (chunksOf n l).length = (l.length + n - 1) / n
  | [] => by
    rw [chunksOf_nil]
    simp only [List.length_nil, Nat.zero_add]
    exact (Nat.div_eq_of_lt (by omega)).symm
  | a :: rest => by
    have ih := chunksOf_length n hn (rest.drop (n - 1))
    rw [chunksOf_cons]
    simp only [List.length_cons, ih, List.length_drop]
    have h2 : rest.length + 1 + n - 1 = rest.length + n := by omega
    rw [h2, Nat.add_div_right _ hn]
    congr 1
    rcases le_or_lt (n - 1) rest.length with h | h
    · congr 1
      omega
    · rw [Nat.div_eq_of_lt (by omega), Nat.div_eq_of_lt (by omega)]
termination_by l => l.length
decreasing_by simp only [List.length_drop, List.length_cons]; omega

theorem chunksOf_getElem (n : Nat) (hn : 0 < n) :
    ∀ (l : List α) (k : Nat), k < (chunksOf n l).length →
      (chunksOf n l)[k]? = some ((l.drop (k * n)).take n)
  | [], k, hk => by rw [chunksOf_nil] at hk; exact absurd hk (by simp)
  | a :: rest, 0, hk => by
    obtain ⟨m, rfl⟩ : ∃ m, n = m + 1 := ⟨n - 1, by omega⟩
    rw [chunksOf_cons]
    simp [List.take_succ_cons]
  | a :: rest, k + 1, hk => by
    rw [chunksOf_cons] at hk ⊢
    simp only [List.length_cons] at hk
    have ih := chunksOf_getElem n hn (rest.drop (n - 1)) k (by omega)
    simp only [List.getElem?_cons_succ, ih, List.drop_drop]
    have hmul : (k + 1) * n = k * n + n := by ring
    have harith : n - 1 + k * n = (k + 1) * n - 1 := by omega
    rw [harith]
    obtain ⟨m, hm⟩ : ∃ m, (k + 1) * n = m + 1 := ⟨(k + 1) * n - 1, by omega⟩
    rw [hm]
    simp [List.drop_succ_cons]
termination_by l => l.length
decreasing_by simp only [List.length_drop, List.length_cons]; omega

theorem frameChunks_cons (url : String) (L : Nat) (c : Bytes) (rest : List Bytes)
    (offset : Nat) :
    frameChunks url L (c :: rest) offset =
      Request.chunkUpload url offset (min (offset + CHUNK_SIZE_FACTOR) L - 1) L c
        :: frameChunks url L rest (offset + CHUNK_SIZE_FACTOR) := by
  simp only [frameChunks]
  congr 1
  have : (if offset + CHUNK_SIZE_FACTOR > L then L else offset + CHUNK_SIZE_FACTOR)
      = min (offset + CHUNK_SIZE_FACTOR) L := by
    split <;> omega
  rw [this]

theorem frameChunks_length (url : String) (L : Nat) :
    ∀ (cs : List Bytes) (offset : Nat), (frameChunks url L cs offset).length = cs.length := by
  intro cs
  induction cs with
  | nil => intro offset; rfl
  | cons c rest ih =>
    intro offset
    rw [frameChunks_cons]
    simp [ih]

theorem chunkBodies_frameChunks (url : String) (L : Nat) :
    ∀ (cs : List Bytes) (offset : Nat), chunkBodies (frameChunks url L cs offset) = cs := by
  intro cs
  induction cs with
  | nil => intro offset; rfl
  | cons c rest ih =>
    intro offset
    rw [frameChunks_cons]
    simp only [chunkBodies, List.filterMap_cons] at ih ⊢
    rw [ih]

theorem chunkRanges_frameChunks_getElem (url : String) (L : Nat) :
    ∀ (cs : List Bytes) (offset k : Nat), k < cs.length →
      (chunkRanges (frameChunks url L cs offset))[k]? =
        some (offset + k * CHUNK_SIZE_FACTOR,
          min (offset + k * CHUNK_SIZE_FACTOR + CHUNK_SIZE_FACTOR) L - 1, L) := by
  intro cs
  induction cs with
  | nil => intro offset k hk; exact absurd hk (by simp)
  | cons c rest ih =>
    intro offset k hk
    rw [frameChunks_cons]
    simp only [chunkRanges, List.filterMap_cons]
    cases k with
    | zero => simp
    | succ k =>
      simp only [List.length_cons] at hk
      have := ih (offset + CHUNK_SIZE_FACTOR) k (by omega)
      simp only [chunkRanges] at this
      simp only [List.getElem?_cons_succ, this]
      have : offset + CHUNK_SIZE_FACTOR + k * CHUNK_SIZE_FACTOR
          = offset + (k + 1) * CHUNK_SIZE_FACTOR := by ring
      rw [this]

theorem chunkRanges_frameChunks_length (url : String) (L : Nat) (cs : List Bytes)
    (offset : Nat) : (chunkRanges (frameChunks url L cs offset)).length = cs.length := by
  induction cs generalizing offset with
  | nil => rfl
  | cons c rest ih =>
    rw [frameChunks_cons]
    simp only [chunkRanges, List.filterMap_cons] at ih ⊢
    simp [ih]

theorem upload_chunks_cons (url : String) (total : Bytes) (b : BackendModel) (c : Bytes)
    (rest : List Bytes) (offset i : Nat) :
    upload_chunks url total b (c :: rest) offset i =
      if chunkUploadAccepted (b.status i) then
        (Request.chunkUpload url offset (min (offset + CHUNK_SIZE_FACTOR) total.length - 1)
            total.length c
          :: (upload_chunks url total b rest (offset + CHUNK_SIZE_FACTOR) (i + 1)).1,
         (upload_chunks url total b rest (offset + CHUNK_SIZE_FACTOR) (i + 1)).2)
      else
        ([Request.chunkUpload url offset (min (offset + CHUNK_SIZE_FACTOR) total.length - 1)
            total.length c],
         .error (.backend (b.status i))) := by
  have hmin : (if offset + CHUNK_SIZE_FACTOR > total.length then total.length
      else offset + CHUNK_SIZE_FACTOR) = min (offset + CHUNK_SIZE_FACTOR) total.length := by
    split <;> omega
  simp only [upload_chunks, hmin]

theorem upload_chunks_all_accepted (url : String) (total : Bytes) (b : BackendModel) :
    ∀ (cs : List Bytes) (offset i : Nat),
      (∀ k, k < cs.length → chunkUploadAccepted (b.status (i + k)) = true) →
      upload_chunks url total b cs offset i =
        (frameChunks url total.length cs offset, .ok ()) := by
  intro cs
  induction cs with
  | nil => intro offset i _; rfl
  | cons c rest ih =>
    intro offset i h
    have h0 : chunkUploadAccepted (b.status i) = true := by
      have := h 0 (by simp)
      simpa using this
    have hrest : ∀ k, k < rest.length → chunkUploadAccepted (b.status (i + 1 + k)) = true := by
      intro k hk
      have := h (k + 1) (by simp; omega)
      have harith : i + (k + 1) = i + 1 + k := by omega
      rwa [harith] at this
    rw [upload_chunks_cons, if_pos h0, ih (offset + CHUNK_SIZE_FACTOR) (i + 1) hrest,
      frameChunks_cons]

theorem upload_chunks_trace_take (url : String) (total : Bytes) (b : BackendModel) :
    ∀ (cs : List Bytes) (offset i : Nat),
      ∃ m, m ≤ cs.length ∧
        (upload_chunks url total b cs offset i).1 =
          frameChunks url total.length (cs.take m) offset := by
  intro cs
  induction cs with
  | nil => intro offset i; exact ⟨0, by simp, rfl⟩
  | cons c rest ih =>
    intro offset i
    by_cases h0 : chunkUploadAccepted (b.status i) = true
    · obtain ⟨m, hm, htr⟩ := ih (offset + CHUNK_SIZE_FACTOR) (i + 1)
      refine ⟨m + 1, by simp; omega, ?_⟩
      rw [upload_chunks_cons, if_pos h0]
      simp only [List.take_succ_cons, frameChunks_cons, htr]
    · refine ⟨1, by simp, ?_⟩
      rw [upload_chunks_cons, if_neg h0]
      simp only [List.take_succ_cons, List.take_zero, frameChunks_cons]
      rfl

theorem upload_chunks_first_failure (url : String) (total : Bytes) (b : BackendModel) :
    ∀ (cs : List Bytes) (offset i j : Nat), j < cs.length →
      (∀ k, k < j → chunkUploadAccepted (b.status (i + k)) = true) →
      chunkUploadAccepted (b.status (i + j)) = false →
      (upload_chunks url total b cs offset i).1.length = j + 1 ∧
        (upload_chunks url total b cs offset i).2 = .error (.backend (b.status (i + j))) := by
  intro cs
  induction cs with
  | nil => intro offset i j hj; exact absurd hj (by simp)
  | cons c rest ih =>
    intro offset i j hj hacc hfail
    cases j with
    | zero =>
      simp only [Nat.add_zero] at hfail
      rw [upload_chunks_cons, if_neg (by simp [hfail])]
      simp
    | succ j =>
      have h0 : chunkUploadAccepted (b.status i) = true := by
        have := hacc 0 (by omega)
        simpa using this
      have hacc1 : ∀ k, k < j → chunkUploadAccepted (b.status (i + 1 + k)) = true := by
        intro k hk
        have := hacc (k + 1) (by omega)
        have harith : i + (k + 1) = i + 1 + k := by omega
        rwa [harith] at this
      have hfail1 : chunkUploadAccepted (b.status (i + 1 + j)) = false := by
        have harith : i + (j + 1) = i + 1 + j := by omega
        rwa [harith] at hfail
      have hlen : j < rest.length := by simpa using hj
      obtain ⟨hl, hr⟩ := ih (offset + CHUNK_SIZE_FACTOR) (i + 1) j hlen hacc1 hfail1
      rw [upload_chunks_cons, if_pos h0]
      constructor
      · simpa using hl
      · have harith : i + (j + 1) = i + 1 + j := by omega
        rw [harith]
        simpa using hr

theorem create_upload_session_cases (path : List Char) (b : BackendModel) (i : Nat) :
    ∃ name, fileNameFromPath path = some name ∧
      create_upload_session path b i =
        ([Request.post path (sessionCreationRequestBody name)],
         if b.status i = statusOK then
           match b.sessionBody with
           | some r => .ok r
           | none => .error .jsonDeserialize
         else .error (.backend (b.status i))) := by
  obtain ⟨name, hname⟩ := fileNameFromPath_isSome path
  refine ⟨name, hname, ?_⟩
  unfold create_upload_session
  rw [hname]
  by_cases h : b.status i = statusOK
  · cases b.sessionBody <;> simp [h]
  · simp [h]

theorem write_chunked_session_ok (w : OneDriveWriter β) (bs : Bytes) (b : BackendModel)
    (r : SessionResponse) (h : b.status 0 = statusOK) (hb : b.sessionBody = some r) :
    ∃ name, fileNameFromPath w.path = some name ∧
      write_chunked w bs b =
        (Request.post w.path (sessionCreationRequestBody name)
           :: (upload_chunks r.uploadUrl bs b (chunksOf CHUNK_SIZE_FACTOR bs) 0 1).1,
         (upload_chunks r.uploadUrl bs b (chunksOf CHUNK_SIZE_FACTOR bs) 0 1).2) := by
  obtain ⟨name, hname, heq⟩ := create_upload_session_cases w.path b 0
  rw [if_pos h, hb] at heq
  refine ⟨name, hname, ?_⟩
  unfold write_chunked
  rw [heq]
  simp

theorem write_chunked_session_fail (w : OneDriveWriter β) (bs : Bytes) (b : BackendModel)
    (h : b.status 0 ≠ statusOK) :
    ∃ name, fileNameFromPath w.path = some name ∧
      write_chunked w bs b =
        ([Request.post w.path (sessionCreationRequestBody name)],
         .error (.backend (b.status 0))) := by
  obtain ⟨name, hname, heq⟩ := create_upload_session_cases w.path b 0
  rw [if_neg h] at heq
  refine ⟨name, hname, ?_⟩
  unfold write_chunked
  rw [heq]

theorem chunkFactor_pos : 0 < CHUNK_SIZE_FACTOR := by decide

theorem numChunks_eq (L : Nat) (hL : 0 < L) :
    (L + CHUNK_SIZE_FACTOR - 1) / CHUNK_SIZE_FACTOR = (L - 1) / CHUNK_SIZE_FACTOR + 1 := by
  have h : L + CHUNK_SIZE_FACTOR - 1 = (L - 1) + CHUNK_SIZE_FACTOR := by
    have := chunkFactor_pos
    omega
  rw [h, Nat.add_div_right _ chunkFactor_pos]

theorem numChunks_pos (L : Nat) (hL : 0 < L) :
    0 < (L + CHUNK_SIZE_FACTOR - 1) / CHUNK_SIZE_FACTOR := by
  rw [numChunks_eq L hL]
  exact Nat.succ_pos _

theorem offset_lt_len (L k : Nat) (hL : 0 < L)
    (hk : k < (L + CHUNK_SIZE_FACTOR - 1) / CHUNK_SIZE_FACTOR) :
    k * CHUNK_SIZE_FACTOR < L := by
  rw [numChunks_eq L hL] at hk
  have h1 : k ≤ (L - 1) / CHUNK_SIZE_FACTOR := by omega
  have h2 : k * CHUNK_SIZE_FACTOR ≤ ((L - 1) / CHUNK_SIZE_FACTOR) * CHUNK_SIZE_FACTOR :=
    Nat.mul_le_mul_right _ h1
  have h3 : ((L - 1) / CHUNK_SIZE_FACTOR) * CHUNK_SIZE_FACTOR ≤ L - 1 :=
    Nat.div_mul_le_self _ _
  omega

theorem full_chunk_bound (L k : Nat)
    (hk : k + 1 < (L + CHUNK_SIZE_FACTOR - 1) / CHUNK_SIZE_FACTOR) :
    (k + 1) * CHUNK_SIZE_FACTOR < L := by
  have hL : 0 < L := by
    by_contra h
    have hz : L = 0 := by omega
    subst hz
    rw [Nat.div_eq_of_lt (by have := chunkFactor_pos; omega)] at hk
    omega
  exact offset_lt_len L (k + 1) hL (by omega)

theorem ceil_mul_ge (L : Nat) :
    L ≤ ((L + CHUNK_SIZE_FACTOR - 1) / CHUNK_SIZE_FACTOR) * CHUNK_SIZE_FACTOR := by
  rcases Nat.eq_zero_or_pos L with h | h
  · simp [h]
  · have hdm := Nat.div_add_mod (L + CHUNK_SIZE_FACTOR - 1) CHUNK_SIZE_FACTOR
    have hml : (L + CHUNK_SIZE_FACTOR - 1) % CHUNK_SIZE_FACTOR < CHUNK_SIZE_FACTOR :=
      Nat.mod_lt _ chunkFactor_pos
    have hc : CHUNK_SIZE_FACTOR * ((L + CHUNK_SIZE_FACTOR - 1) / CHUNK_SIZE_FACTOR)
        = ((L + CHUNK_SIZE_FACTOR - 1) / CHUNK_SIZE_FACTOR) * CHUNK_SIZE_FACTOR :=
      Nat.mul_comm _ _
    have := chunkFactor_pos
    omega

theorem frameChunks_getElem (url : String) (L : Nat) :
    ∀ (cs : List Bytes) (offset k : Nat), k < cs.length →
      ∃ c, cs[k]? = some c ∧
        (frameChunks url L cs offset)[k]? =
          some (Request.chunkUpload url (offset + k * CHUNK_SIZE_FACTOR)
            (min (offset + k * CHUNK_SIZE_FACTOR + CHUNK_SIZE_FACTOR) L - 1) L c) := by
  intro cs
  induction cs with
  | nil => intro offset k hk; exact absurd hk (by simp)
  | cons c rest ih =>
    intro offset k hk
    rw [frameChunks_cons]
    cases k with
    | zero => exact ⟨c, by simp⟩
    | succ k =>
      simp only [List.length_cons] at hk
      obtain ⟨c2, hc2, hf⟩ := ih (offset + CHUNK_SIZE_FACTOR) k (by omega)
      refine ⟨c2, by simpa using hc2, ?_⟩
      simp only [List.getElem?_cons_succ, hf]
      have : offset + CHUNK_SIZE_FACTOR + k * CHUNK_SIZE_FACTOR
          = offset + (k + 1) * CHUNK_SIZE_FACTOR := by ring
      rw [this]

theorem frameChunks_mem (url : String) (L : Nat) :
    ∀ (cs : List Bytes) (offset : Nat) (q : Request),
      q ∈ frameChunks url L cs offset → ∃ u o e t c, q = Request.chunkUpload u o e t c := by
  intro cs
  induction cs with
  | nil => intro offset q hq; exact absurd hq (by simp [frameChunks])
  | cons c rest ih =>
    intro offset q hq
    rw [frameChunks_cons] at hq
    rcases List.mem_cons.mp hq with h | h
    · exact ⟨_, _, _, _, _, h⟩
    · exact ih _ q h

theorem upload_chunks_no_unexpected (url : String) (total : Bytes) (b : BackendModel) :
    ∀ (cs : List Bytes) (offset i : Nat) (msg : String),
      (upload_chunks url total b cs offset i).2 ≠ .error (.unexpected msg) := by
  intro cs
  induction cs with
  | nil => intro offset i msg; simp [upload_chunks]
  | cons c rest ih =>
    intro offset i msg
    rw [upload_chunks_cons]
    by_cases h : chunkUploadAccepted (b.status i) = true
    · rw [if_pos h]
      exact ih (offset + CHUNK_SIZE_FACTOR) (i + 1) msg
    · rw [if_neg h]
      simp

theorem write_chunked_session_bodyNone (w : OneDriveWriter β) (bs : Bytes)
    (b : BackendModel) (h : b.status 0 = statusOK) (hb : b.sessionBody = none) :
    ∃ name, fileNameFromPath w.path = some name ∧
      write_chunked w bs b =
        ([Request.post w.path (sessionCreationRequestBody name)],
         .error .jsonDeserialize) := by
  obtain ⟨name, hname, heq⟩ := create_upload_session_cases w.path b 0
  rw [if_pos h, hb] at heq
  refine ⟨name, hname, ?_⟩
  unfold write_chunked
  rw [heq]

theorem splitChar_append_sep (c : Char) :
    ∀ (s : List Char), splitChar c (s ++ [c]) = splitChar c s ++ [[]] := by
  intro s
  induction s with
  | nil => simp [splitChar]
  | cons a rest ih =>
    by_cases h : a = c
    · simp only [List.cons_append, splitChar, if_pos h]
      exact congrArg (List.cons []) ih
    · simp only [List.cons_append, splitChar, if_neg h]
      cases hs : splitChar c rest with
      | nil => exact absurd hs (splitChar_ne_nil c rest)
      | cons x xs =>
        simp only [List.append_eq]
        rw [ih, hs]
        simp

theorem write_chunked_ok_trace (w : OneDriveWriter β) (bs : Bytes) (b : BackendModel)
    (r : SessionResponse) (hsess : b.status 0 = statusOK) (hbody : b.sessionBody = some r)
    (hacc : ∀ k, k < (chunksOf CHUNK_SIZE_FACTOR bs).length →
      chunkUploadAccepted (b.status (1 + k)) = true) :
    ∃ name, fileNameFromPath w.path = some name ∧
      (write_chunked w bs b).1 = Request.post w.path (sessionCreationRequestBody name)
        :: frameChunks r.uploadUrl bs.length (chunksOf CHUNK_SIZE_FACTOR bs) 0 ∧
      (write_chunked w bs b).2 = Except.ok () := by
  obtain ⟨name, hname, heq⟩ := write_chunked_session_ok w bs b r hsess hbody
  rw [upload_chunks_all_accepted r.uploadUrl bs b _ 0 1 hacc] at heq
  exact ⟨name, hname, by rw [heq], by rw [heq]⟩

theorem write_chunked_any_trace (w : OneDriveWriter β) (bs : Bytes) (b : BackendModel)
    (r : SessionResponse) (hsess : b.status 0 = statusOK) (hbody : b.sessionBody = some r) :
    ∃ name m, fileNameFromPath w.path = some name ∧
      m ≤ (chunksOf CHUNK_SIZE_FACTOR bs).length ∧
      (write_chunked w bs b).1 = Request.post w.path (sessionCreationRequestBody name)
        :: frameChunks r.uploadUrl bs.length ((chunksOf CHUNK_SIZE_FACTOR bs).take m) 0 := by
  obtain ⟨name, hname, heq⟩ := write_chunked_session_ok w bs b r hsess hbody
  obtain ⟨m, hm, htr⟩ :=
    upload_chunks_trace_take r.uploadUrl bs b (chunksOf CHUNK_SIZE_FACTOR bs) 0 1
  refine ⟨name, m, hname, hm, ?_⟩
  rw [heq]
  show Request.post w.path (sessionCreationRequestBody name)
      :: (upload_chunks r.uploadUrl bs b (chunksOf CHUNK_SIZE_FACTOR bs) 0 1).1 = _
  rw [htr]

theorem chunkBodies_cons_post (p : List Char) (body : SessionCreationBody)
    (tr : List Request) : chunkBodies (Request.post p body :: tr) = chunkBodies tr := rfl

theorem chunkRanges_cons_post (p : List Char) (body : SessionCreationBody)
    (tr : List Request) : chunkRanges (Request.post p body :: tr) = chunkRanges tr := rfl

theorem chunkRanges_cons_chunk (u : String) (o e t : Nat) (c : Bytes)
    (tr : List Request) :
    chunkRanges (Request.chunkUpload u o e t c :: tr) = (o, e, t) :: chunkRanges tr := rfl

theorem chunksOf_factor_ne_nil (bs : Bytes) (hne : bs ≠ []) :
    chunksOf CHUNK_SIZE_FACTOR bs ≠ [] := by
  cases bs with
  | nil => exact absurd rfl hne
  | cons a rest =>
    rw [chunksOf_cons]
    simp

theorem chunksOf_factor_full (bs : Bytes) (k : Nat)
    (hk : k + 1 < (bs.length + CHUNK_SIZE_FACTOR - 1) / CHUNK_SIZE_FACTOR) :
    ∃ c, (chunksOf CHUNK_SIZE_FACTOR bs)[k]? = some c ∧ c.length = CHUNK_SIZE_FACTOR := by
  have hlen := chunksOf_length CHUNK_SIZE_FACTOR chunkFactor_pos bs
  have hkn : k < (chunksOf CHUNK_SIZE_FACTOR bs).length := by rw [hlen]; omega
  have hget := chunksOf_getElem CHUNK_SIZE_FACTOR chunkFactor_pos bs k hkn
  refine ⟨_, hget, ?_⟩
  have hfull := full_chunk_bound bs.length k hk
  have hmul : (k + 1) * CHUNK_SIZE_FACTOR = k * CHUNK_SIZE_FACTOR + CHUNK_SIZE_FACTOR := by
    ring
  rw [List.length_take, List.length_drop]
  omega

theorem chunksOf_factor_last (bs : Bytes) (hne : bs ≠ []) :
    ∃ c, (chunksOf CHUNK_SIZE_FACTOR bs).getLast? = some c ∧
      c.length = bs.length - CHUNK_SIZE_FACTOR
        * ((bs.length + CHUNK_SIZE_FACTOR - 1) / CHUNK_SIZE_FACTOR - 1) := by
  have hlen := chunksOf_length CHUNK_SIZE_FACTOR chunkFactor_pos bs
  have hLpos : 0 < bs.length := List.length_pos.mpr hne
  have hnpos := numChunks_pos bs.length hLpos
  obtain ⟨m, hm⟩ : ∃ m, (bs.length + CHUNK_SIZE_FACTOR - 1) / CHUNK_SIZE_FACTOR = m + 1 :=
    ⟨(bs.length + CHUNK_SIZE_FACTOR - 1) / CHUNK_SIZE_FACTOR - 1, by omega⟩
  have hmn : m < (chunksOf CHUNK_SIZE_FACTOR bs).length := by rw [hlen, hm]; omega
  have hget := chunksOf_getElem CHUNK_SIZE_FACTOR chunkFactor_pos bs m hmn
  refine ⟨List.take CHUNK_SIZE_FACTOR (List.drop (m * CHUNK_SIZE_FACTOR) bs), ?_, ?_⟩
  · rw [List.getLast?_eq_getElem?, hlen, hm]
    exact hget
  · have hceil := ceil_mul_ge bs.length
    rw [hm] at hceil
    have hmul : (m + 1) * CHUNK_SIZE_FACTOR = m * CHUNK_SIZE_FACTOR + CHUNK_SIZE_FACTOR := by
      ring
    have hcomm : CHUNK_SIZE_FACTOR * m = m * CHUNK_SIZE_FACTOR := Nat.mul_comm _ _
    rw [List.length_take, List.length_drop, hm]
    simp only [Nat.add_sub_cancel]
    omega

theorem chunkRanges_frameChunks_chain (url : String) (L : Nat) :
    ∀ (cs : List Bytes) (offset : Nat),
      List.Chain' (fun p q : Nat × Nat × Nat => p.1 < q.1)
        (chunkRanges (frameChunks url L cs offset)) := by
  intro cs
  induction cs with
  | nil => intro offset; simp [frameChunks, chunkRanges]
  | cons c rest ih =>
    intro offset
    rw [frameChunks_cons, chunkRanges_cons_chunk]
    cases rest with
    | nil => simp [frameChunks, chunkRanges]
    | cons c2 rest2 =>
      have hnext := ih (offset + CHUNK_SIZE_FACTOR)
      rw [frameChunks_cons, chunkRanges_cons_chunk] at hnext ⊢
      rw [List.chain'_cons]
      refine ⟨?_, hnext⟩
      have := chunkFactor_pos
      simp only []
      omega

/-- Claim C1: `write` dispatches on the payload length against
`MAX_SIMPLE_SIZE` (4 MiB, boundary inclusive).  A payload whose length is at
most the threshold takes the single-shot path and issues exactly one backend
`put` request carrying the full payload; a strictly larger payload takes the
chunked path.  Exactly one of the two paths is taken, decided solely by the
payload length. -/
theorem claim_C1 (β : Type) (w : OneDriveWriter β) (bs : Bytes) (b : BackendModel) :
    (bs.length ≤ MAX_SIMPLE_SIZE →
      w.write bs b = write_simple w bs b ∧
      (w.write bs b).1 = [Request.put w.path (some bs.length) w.op.contentType bs]) ∧
    (MAX_SIMPLE_SIZE < bs.length → w.write bs b = write_chunked w bs b) := by
  constructor
  · intro h
    have he : w.write bs b = write_simple w bs b := by
      unfold OneDriveWriter.write
      rw [if_pos h]
    refine ⟨he, ?_⟩
    rw [he]
    unfold write_simple
    split <;> rfl
  · intro h
    unfold OneDriveWriter.write
    rw [if_neg (by omega)]

/-- Witness for claim C1 at payloads of exactly 4 MiB (single-shot side of
the boundary) and 4 MiB + 1 bytes (chunked side). -/
theorem claim_C1_witness :
    (List.replicate MAX_SIMPLE_SIZE 0 : Bytes).length ≤ MAX_SIMPLE_SIZE ∧
    (sampleWriter.write (List.replicate MAX_SIMPLE_SIZE 0) okBackend).1 =
      [Request.put sampleWriter.path (some (List.replicate MAX_SIMPLE_SIZE (0 : Nat)).length)
        sampleWriter.op.contentType (List.replicate MAX_SIMPLE_SIZE 0)] ∧
    MAX_SIMPLE_SIZE < (List.replicate (MAX_SIMPLE_SIZE + 1) 0 : Bytes).length ∧
    sampleWriter.write (List.replicate (MAX_SIMPLE_SIZE + 1) 0) okBackend
      = write_chunked sampleWriter (List.replicate (MAX_SIMPLE_SIZE + 1) 0) okBackend := by
  have h1 : (List.replicate MAX_SIMPLE_SIZE (0 : Nat)).length ≤ MAX_SIMPLE_SIZE := by
    rw [List.length_replicate]
  have h2 : MAX_SIMPLE_SIZE < (List.replicate (MAX_SIMPLE_SIZE + 1) (0 : Nat)).length := by
    rw [List.length_replicate]
    omega
  exact ⟨h1, ((claim_C1 Unit sampleWriter _ okBackend).1 h1).2,
    h2, (claim_C1 Unit sampleWriter _ okBackend).2 h2⟩

/-- Claim C7: the accepted status sets are exactly — single-shot upload
succeeds iff the status is in {Created, OK}; session creation succeeds only
on OK; a chunk upload is accepted iff the status is in {Accepted, Created,
OK}; any other status yields a parsed backend error carrying that status. -/
theorem claim_C7 (β : Type) (w : OneDriveWriter β) (bs : Bytes) (b : BackendModel)
    (p : List Char) (i s : Nat) (url : String) (total c : Bytes) (rest : List Bytes)
    (off : Nat) :
    ((write_simple w bs b).2 = .ok () ↔
      (b.status 0 = statusCREATED ∨ b.status 0 = statusOK)) ∧
    (¬(b.status 0 = statusCREATED ∨ b.status 0 = statusOK) →
      (write_simple w bs b).2 = .error (.backend (b.status 0))) ∧
    (∀ r, (create_upload_session p b i).2 = .ok r → b.status i = statusOK) ∧
    (b.status i ≠ statusOK →
      (create_upload_session p b i).2 = .error (.backend (b.status i))) ∧
    (chunkUploadAccepted s = true ↔
      (s = statusACCEPTED ∨ s = statusCREATED ∨ s = statusOK)) ∧
    (chunkUploadAccepted (b.status i) = false →
      (upload_chunks url total b (c :: rest) off i).2 = .error (.backend (b.status i))) ∧
    (chunkUploadAccepted (b.status i) = true →
      (upload_chunks url total b (c :: rest) off i).2
        = (upload_chunks url total b rest (off + CHUNK_SIZE_FACTOR) (i + 1)).2) := by
  obtain ⟨name, hname, heq⟩ := create_upload_session_cases p b i
  refine ⟨?_, ?_, ?_, ?_, ?_, ?_, ?_⟩
  · unfold write_simple
    split
    next h => simp [h]
    next h => simp [h]
  · intro h
    unfold write_simple
    rw [if_neg h]
  · intro r hr
    by_contra hc
    rw [heq, if_neg hc] at hr
    simp at hr
  · intro h
    rw [heq, if_neg h]
  · constructor
    · intro h
      simp only [chunkUploadAccepted, Bool.or_eq_true, beq_iff_eq] at h
      tauto
    · intro h
      simp only [chunkUploadAccepted, Bool.or_eq_true, beq_iff_eq]
      tauto
  · intro h
    rw [upload_chunks_cons, if_neg (by simp [h])]
  · intro h
    rw [upload_chunks_cons, if_pos h]

/-- Witness for claim C7: concrete rejected (500) and accepted (200)
responses for each of the three request kinds. -/
theorem claim_C7_witness :
    (write_simple sampleWriter [1] rejectBackend).2
      = .error (.backend (rejectBackend.status 0)) ∧
    (create_upload_session ['d'] rejectBackend 0).2
      = .error (.backend (rejectBackend.status 0)) ∧
    (upload_chunks "u" [1] rejectBackend [[1]] 0 0).2
      = .error (.backend (rejectBackend.status 0)) ∧
    (upload_chunks "u" [1] okBackend [[1]] 0 0).2
      = (upload_chunks "u" [1] okBackend [] (0 + CHUNK_SIZE_FACTOR) (0 + 1)).2 ∧
    ((write_simple sampleWriter [1] okBackend).2 = .ok () ↔
      (okBackend.status 0 = statusCREATED ∨ okBackend.status 0 = statusOK)) ∧
    (∀ r, (create_upload_session ['d'] okBackend 0).2 = .ok r →
      okBackend.status 0 = statusOK) := by
  have hr := claim_C7 Unit sampleWriter [1] rejectBackend ['d'] 0 500 "u" [1] [1] [] 0
  have ho := claim_C7 Unit sampleWriter [1] okBackend ['d'] 0 200 "u" [1] [1] [] 0
  exact ⟨hr.2.1 (by decide), hr.2.2.2.1 (by decide), hr.2.2.2.2.2.1 (by decide),
    ho.2.2.2.2.2.2 (by decide), ho.1, ho.2.2.1⟩

/-- Claim C8: for every writer state, `abort` and `close` return success,
issue no backend request, and leave every field of the writer (backend, op,
path) unchanged. -/
theorem claim_C8 (β : Type) (w : OneDriveWriter β) :
    w.abort = (w, [], .ok ()) ∧ w.close = (w, [], .ok ()) ∧
    (w.abort.1.backend = w.backend ∧ w.abort.1.op = w.op ∧ w.abort.1.path = w.path) ∧
    (w.close.1.backend = w.backend ∧ w.close.1.op = w.op ∧ w.close.1.path = w.path) ∧
    w.abort.2.1 = [] ∧ w.close.2.1 = [] ∧
    w.abort.2.2 = .ok () ∧ w.close.2.2 = .ok () :=
  ⟨rfl, rfl, ⟨rfl, rfl, rfl⟩, ⟨rfl, rfl, rfl⟩, rfl, rfl, rfl, rfl⟩

/-- Claim C9: file-name extraction (split the path on '/' and take the last
segment) returns `some` for every path, so the no-extractable-file-name
error branch is unreachable; an empty path, or a path ending in '/', yields
an empty item name, and the session-creation request is still issued. -/
theorem claim_C9 (path : List Char) (b : BackendModel) (i : Nat) :
    (∃ name, fileNameFromPath path = some name) ∧
    (create_upload_session path b i).1.length = 1 ∧
    fileNameFromPath [] = some [] ∧
    fileNameFromPath (path ++ ['/']) = some [] ∧
    (create_upload_session [] b i).1
      = [Request.post [] (sessionCreationRequestBody [])] := by
  obtain ⟨name, hname, heq⟩ := create_upload_session_cases path b i
  refine ⟨⟨name, hname⟩, by rw [heq]; rfl, rfl, ?_, ?_⟩
  · unfold fileNameFromPath
    rw [splitChar_append_sep]
    simp
  · obtain ⟨nm, hnm, heq0⟩ := create_upload_session_cases ([] : List Char) b i
    have hnm0 : nm = [] := by
      have h0 : fileNameFromPath ([] : List Char) = some [] := rfl
      rw [h0] at hnm
      exact (Option.some_inj.mp hnm).symm
    rw [heq0, hnm0]

/-- Counterexample to claim C6 as stated: a chunked write whose target path
is empty (no extractable file name in the claim's sense) does not fail
before any network request — the session-creation request is issued (the
trace is non-empty, two requests in all) and with an all-success backend
the write returns success. -/
theorem claim_C6_counterexample :
    (write_chunked emptyPathWriter [0] okBackend).1 ≠ [] ∧
    (write_chunked emptyPathWriter [0] okBackend).1.length = 2 ∧
    (write_chunked emptyPathWriter [0] okBackend).2 = .ok () := by
  obtain ⟨name, hname, heq⟩ := write_chunked_session_ok emptyPathWriter [0] okBackend
    { uploadUrl := "session-url", expirationDateTime := "2026-01-01" } rfl rfl
  have hcs : chunksOf CHUNK_SIZE_FACTOR ([0] : Bytes) = [[0]] := by
    rw [chunksOf_cons]
    simp [chunksOf_nil]
  have hloop := fun url => upload_chunks_all_accepted url [0] okBackend [[0]] 0 1
    (by intro k hk; rfl)
  rw [hcs, hloop] at heq
  rw [heq]
  refine ⟨by simp, ?_, rfl⟩
  rw [List.length_cons, frameChunks_length]
  rfl

/-- Claim C6 (amended): the file-name extraction never fails, so a chunked
write never fails for a malformed target path before the network: for every
path — including an empty one, which yields an empty item name — the
session-creation request is issued as the first request of the write, and
the malformed-path error is never returned. -/
theorem claim_C6 (β : Type) (w : OneDriveWriter β) (bs : Bytes) (b : BackendModel) :
    ∃ name, fileNameFromPath w.path = some name ∧
      (write_chunked w bs b).1.head? =
        some (Request.post w.path (sessionCreationRequestBody name)) ∧
      ∀ msg, (write_chunked w bs b).2 ≠ .error (.unexpected msg) := by
  by_cases hs : b.status 0 = statusOK
  · cases hb : b.sessionBody with
    | some r =>
      obtain ⟨name, hname, heq⟩ := write_chunked_session_ok w bs b r hs hb
      refine ⟨name, hname, by rw [heq]; rfl, ?_⟩
      intro msg
      rw [heq]
      exact upload_chunks_no_unexpected _ _ _ _ _ _ msg
    | none =>
      obtain ⟨name, hname, heq⟩ := write_chunked_session_bodyNone w bs b hs hb
      refine ⟨name, hname, by rw [heq]; rfl, ?_⟩
      intro msg
      rw [heq]
      simp
  · obtain ⟨name, hname, heq⟩ := write_chunked_session_fail w bs b hs
    refine ⟨name, hname, by rw [heq]; rfl, ?_⟩
    intro msg
    rw [heq]
    simp

/-- Claim C4: fail-fast.  If session creation returns a non-success status,
the chunked write returns the backend error parsed from that response and
only that one request was issued (no chunk requests).  If the session
succeeded and the first non-accepted chunk response is the j-th, the write
returns the backend error parsed from it and exactly j+2 requests were
issued (session plus chunks 0..j) — nothing after the first failure.  A
failing single-shot write surfaces the parsed backend error as well.  In
every case the whole write fails (no partial-success result). -/
theorem claim_C4 (β : Type) (w : OneDriveWriter β) (bs : Bytes) (b : BackendModel)
    (r : SessionResponse) (j : Nat) :
    (b.status 0 ≠ statusOK →
      (write_chunked w bs b).2 = .error (.backend (b.status 0)) ∧
      (write_chunked w bs b).1.length = 1 ∧
      chunkRanges (write_chunked w bs b).1 = []) ∧
    (b.status 0 = statusOK → b.sessionBody = some r →
      j < (bs.length + CHUNK_SIZE_FACTOR - 1) / CHUNK_SIZE_FACTOR →
      (∀ k, k < j → chunkUploadAccepted (b.status (1 + k)) = true) →
      chunkUploadAccepted (b.status (1 + j)) = false →
      (write_chunked w bs b).2 = .error (.backend (b.status (1 + j))) ∧
      (write_chunked w bs b).1.length = j + 2) ∧
    (¬(b.status 0 = statusCREATED ∨ b.status 0 = statusOK) →
      (write_simple w bs b).2 = .error (.backend (b.status 0))) := by
  refine ⟨?_, ?_, ?_⟩
  · intro hs
    obtain ⟨name, hname, heq⟩ := write_chunked_session_fail w bs b hs
    rw [heq]
    exact ⟨rfl, rfl, rfl⟩
  · intro hs hb hj hacc hfail
    obtain ⟨name, hname, heq⟩ := write_chunked_session_ok w bs b r hs hb
    have hlen : (chunksOf CHUNK_SIZE_FACTOR bs).length
        = (bs.length + CHUNK_SIZE_FACTOR - 1) / CHUNK_SIZE_FACTOR :=
      chunksOf_length CHUNK_SIZE_FACTOR chunkFactor_pos bs
    have hj2 : j < (chunksOf CHUNK_SIZE_FACTOR bs).length := by rw [hlen]; exact hj
    obtain ⟨hl, hres⟩ := upload_chunks_first_failure r.uploadUrl bs b
      (chunksOf CHUNK_SIZE_FACTOR bs) 0 1 j hj2 hacc hfail
    rw [heq]
    refine ⟨hres, ?_⟩
    rw [List.length_cons, hl]
  · intro h
    unfold write_simple
    rw [if_neg h]

/-- Witness for claim C4: a rejected session creation (status 500), a write
whose first chunk upload is rejected after a successful session creation,
and a rejected single-shot upload. -/
theorem claim_C4_witness :
    ((write_chunked sampleWriter [5] rejectBackend).2
        = .error (.backend (rejectBackend.status 0)) ∧
      (write_chunked sampleWriter [5] rejectBackend).1.length = 1 ∧
      chunkRanges (write_chunked sampleWriter [5] rejectBackend).1 = []) ∧
    ((write_chunked sampleWriter [5] chunkFailBackend).2
        = .error (.backend (chunkFailBackend.status 1)) ∧
      (write_chunked sampleWriter [5] chunkFailBackend).1.length = 2) ∧
    (write_simple sampleWriter [5] rejectBackend).2
      = .error (.backend (rejectBackend.status 0)) := by
  have h1 := (claim_C4 Unit sampleWriter [5] rejectBackend
    { uploadUrl := "session-url", expirationDateTime := "2026-01-01" } 0).1 (by decide)
  have h2 := (claim_C4 Unit sampleWriter [5] chunkFailBackend
    { uploadUrl := "session-url", expirationDateTime := "2026-01-01" } 0).2.1 rfl rfl
    (by decide) (fun k hk => absurd hk (by omega)) (by decide)
  have h3 := (claim_C4 Unit sampleWriter [5] rejectBackend
    { uploadUrl := "session-url", expirationDateTime := "2026-01-01" } 0).2.2 (by decide)
  exact ⟨h1, h2, h3⟩

/-- Claim C2: for every non-empty payload of length L, assuming all backend
responses are successes, the chunked write succeeds and issues exactly
ceil(L / 327680) chunk requests plus one session-creation request (the
session request first); every chunk except the last carries exactly 327680
bytes, and the last carries exactly L - 327680 * (numChunks - 1) bytes. -/
theorem claim_C2 (β : Type) (w : OneDriveWriter β) (bs : Bytes) (b : BackendModel)
    (r : SessionResponse) (hne : bs ≠ [])
    (hsess : b.status 0 = statusOK) (hbody : b.sessionBody = some r)
    (hacc : ∀ i, 1 ≤ i → chunkUploadAccepted (b.status i) = true) :
    (write_chunked w bs b).2 = .ok () ∧
    (write_chunked w bs b).1.length
      = (bs.length + CHUNK_SIZE_FACTOR - 1) / CHUNK_SIZE_FACTOR + 1 ∧
    (∃ name, (write_chunked w bs b).1.head?
      = some (Request.post w.path (sessionCreationRequestBody name))) ∧
    (chunkBodies (write_chunked w bs b).1).length
      = (bs.length + CHUNK_SIZE_FACTOR - 1) / CHUNK_SIZE_FACTOR ∧
    (∀ k, k + 1 < (bs.length + CHUNK_SIZE_FACTOR - 1) / CHUNK_SIZE_FACTOR →
      ∃ c, (chunkBodies (write_chunked w bs b).1)[k]? = some c ∧
        c.length = CHUNK_SIZE_FACTOR) ∧
    (∃ c, (chunkBodies (write_chunked w bs b).1).getLast? = some c ∧
      c.length = bs.length - CHUNK_SIZE_FACTOR
        * ((bs.length + CHUNK_SIZE_FACTOR - 1) / CHUNK_SIZE_FACTOR - 1)) := by
  obtain ⟨name, hname, htr, hres⟩ := write_chunked_ok_trace w bs b r hsess hbody
    (fun k _ => hacc (1 + k) (by omega))
  have hlen := chunksOf_length CHUNK_SIZE_FACTOR chunkFactor_pos bs
  have hbodies : chunkBodies (write_chunked w bs b).1 = chunksOf CHUNK_SIZE_FACTOR bs := by
    rw [htr, chunkBodies_cons_post, chunkBodies_frameChunks]
  refine ⟨hres, ?_, ⟨name, by rw [htr]; rfl⟩, ?_, ?_, ?_⟩
  · rw [htr, List.length_cons, frameChunks_length, hlen]
  · rw [hbodies, hlen]
  · intro k hk
    obtain ⟨c, hc, hclen⟩ := chunksOf_factor_full bs k hk
    exact ⟨c, by rw [hbodies]; exact hc, hclen⟩
  · obtain ⟨c, hc, hclen⟩ := chunksOf_factor_last bs hne
    exact ⟨c, by rw [hbodies]; exact hc, hclen⟩

/-- Witness for claim C2 at the spec's example: a 1,000,000-byte payload,
all responses successful; ceil(1000000 / 327680) = 4 chunks plus the
session-creation request. -/
theorem claim_C2_witness :
    ((write_chunked sampleWriter (List.replicate 1000000 0) okBackend).2 = .ok ()) ∧
    ((write_chunked sampleWriter (List.replicate 1000000 0) okBackend).1.length
      = ((List.replicate 1000000 (0 : Nat)).length + CHUNK_SIZE_FACTOR - 1)
          / CHUNK_SIZE_FACTOR + 1) ∧
    (((List.replicate 1000000 (0 : Nat)).length + CHUNK_SIZE_FACTOR - 1)
        / CHUNK_SIZE_FACTOR = 4) ∧
    (∃ c, ((chunkBodies
        (write_chunked sampleWriter (List.replicate 1000000 0) okBackend).1).getLast?)
        = some c ∧
      c.length = (List.replicate 1000000 (0 : Nat)).length - CHUNK_SIZE_FACTOR
        * (((List.replicate 1000000 (0 : Nat)).length + CHUNK_SIZE_FACTOR - 1)
            / CHUNK_SIZE_FACTOR - 1)) := by
  have hne : (List.replicate 1000000 (0 : Nat)) ≠ [] :=
    List.length_pos.mp (by rw [List.length_replicate]; omega)
  have h := claim_C2 Unit sampleWriter (List.replicate 1000000 0) okBackend
    { uploadUrl := "session-url", expirationDateTime := "2026-01-01" } hne rfl rfl
    (fun i _ => rfl)
  exact ⟨h.1, h.2.1, by rw [List.length_replicate]; decide, h.2.2.2.2.2⟩

/-- Claim C3: for every non-empty chunked write with all responses
successful, the issued chunk ranges are the closed form
(k * 327680, min((k+1) * 327680, L) - 1, L): they start at offset 0, are
contiguous and non-overlapping, end at L - 1, every request declares total
length L, and concatenating the chunk payloads in issue order reproduces
the payload exactly. -/
theorem claim_C3 (β : Type) (w : OneDriveWriter β) (bs : Bytes) (b : BackendModel)
    (r : SessionResponse) (hne : bs ≠ [])
    (hsess : b.status 0 = statusOK) (hbody : b.sessionBody = some r)
    (hacc : ∀ i, 1 ≤ i → chunkUploadAccepted (b.status i) = true) :
    (chunkBodies (write_chunked w bs b).1).flatten = bs ∧
    (chunkRanges (write_chunked w bs b).1).length
      = (bs.length + CHUNK_SIZE_FACTOR - 1) / CHUNK_SIZE_FACTOR ∧
    (∀ k, k < (bs.length + CHUNK_SIZE_FACTOR - 1) / CHUNK_SIZE_FACTOR →
      (chunkRanges (write_chunked w bs b).1)[k]?
        = some (k * CHUNK_SIZE_FACTOR,
            min ((k + 1) * CHUNK_SIZE_FACTOR) bs.length - 1, bs.length)) ∧
    (∃ p, (chunkRanges (write_chunked w bs b).1)[0]? = some p ∧ p.1 = 0) ∧
    (∀ p, p ∈ chunkRanges (write_chunked w bs b).1 → p.2.2 = bs.length) ∧
    (∀ k, k + 1 < (bs.length + CHUNK_SIZE_FACTOR - 1) / CHUNK_SIZE_FACTOR →
      min ((k + 1) * CHUNK_SIZE_FACTOR) bs.length - 1 + 1 = (k + 1) * CHUNK_SIZE_FACTOR) ∧
    (∃ p, (chunkRanges (write_chunked w bs b).1).getLast? = some p ∧
      p.2.1 = bs.length - 1) := by
  obtain ⟨name, hname, htr, hres⟩ := write_chunked_ok_trace w bs b r hsess hbody
    (fun k _ => hacc (1 + k) (by omega))
  have hlen := chunksOf_length CHUNK_SIZE_FACTOR chunkFactor_pos bs
  have hLpos : 0 < bs.length := List.length_pos.mpr hne
  have hnpos := numChunks_pos bs.length hLpos
  have hranges : chunkRanges (write_chunked w bs b).1
      = chunkRanges (frameChunks r.uploadUrl bs.length (chunksOf CHUNK_SIZE_FACTOR bs) 0) := by
    rw [htr, chunkRanges_cons_post]
  have hrlen : (chunkRanges (write_chunked w bs b).1).length
      = (bs.length + CHUNK_SIZE_FACTOR - 1) / CHUNK_SIZE_FACTOR := by
    rw [hranges, chunkRanges_frameChunks_length, hlen]
  have hpoint : ∀ k, k < (bs.length + CHUNK_SIZE_FACTOR - 1) / CHUNK_SIZE_FACTOR →
      (chunkRanges (write_chunked w bs b).1)[k]?
        = some (k * CHUNK_SIZE_FACTOR,
            min ((k + 1) * CHUNK_SIZE_FACTOR) bs.length - 1, bs.length) := by
    intro k hk
    have hkn : k < (chunksOf CHUNK_SIZE_FACTOR bs).length := by rw [hlen]; exact hk
    have h := chunkRanges_frameChunks_getElem r.uploadUrl bs.length
      (chunksOf CHUNK_SIZE_FACTOR bs) 0 k hkn
    rw [hranges, h]
    have e1 : 0 + k * CHUNK_SIZE_FACTOR = k * CHUNK_SIZE_FACTOR := by omega
    have e2 : k * CHUNK_SIZE_FACTOR + CHUNK_SIZE_FACTOR = (k + 1) * CHUNK_SIZE_FACTOR := by
      ring
    rw [e1, e2]
  refine ⟨?_, hrlen, hpoint, ?_, ?_, ?_, ?_⟩
  · rw [htr, chunkBodies_cons_post, chunkBodies_frameChunks, chunksOf_flatten]
  · refine ⟨(0 * CHUNK_SIZE_FACTOR,
      min ((0 + 1) * CHUNK_SIZE_FACTOR) bs.length - 1, bs.length), hpoint 0 hnpos, ?_⟩
    simp
  · intro p hp
    obtain ⟨k, hk⟩ := List.mem_iff_getElem?.mp hp
    have hklt : k < (bs.length + CHUNK_SIZE_FACTOR - 1) / CHUNK_SIZE_FACTOR := by
      have := (List.getElem?_eq_some_iff.mp hk).1
      rw [hrlen] at this
      exact this
    have hp2 : p = (k * CHUNK_SIZE_FACTOR,
        min ((k + 1) * CHUNK_SIZE_FACTOR) bs.length - 1, bs.length) := by
      rw [hpoint k hklt] at hk
      exact (Option.some_inj.mp hk).symm
    rw [hp2]
  · intro k hk
    have hfull := full_chunk_bound bs.length k hk
    have hF := chunkFactor_pos
    have hmul : (k + 1) * CHUNK_SIZE_FACTOR = k * CHUNK_SIZE_FACTOR + CHUNK_SIZE_FACTOR := by
      ring
    omega
  · obtain ⟨m, hm⟩ : ∃ m,
        (bs.length + CHUNK_SIZE_FACTOR - 1) / CHUNK_SIZE_FACTOR = m + 1 :=
      ⟨(bs.length + CHUNK_SIZE_FACTOR - 1) / CHUNK_SIZE_FACTOR - 1, by omega⟩
    have hlast := hpoint m (by omega)
    refine ⟨(m * CHUNK_SIZE_FACTOR,
      min ((m + 1) * CHUNK_SIZE_FACTOR) bs.length - 1, bs.length), ?_, ?_⟩
    · rw [List.getLast?_eq_getElem?, hrlen, hm]
      exact hlast
    · have hceil := ceil_mul_ge bs.length
      rw [hm] at hceil
      show min ((m + 1) * CHUNK_SIZE_FACTOR) bs.length - 1 = bs.length - 1
      omega

/-- Witness for claim C3 at the 1,000,000-byte example payload. -/
theorem claim_C3_witness :
    (chunkBodies (write_chunked sampleWriter (List.replicate 1000000 0) okBackend).1).flatten
      = List.replicate 1000000 0 ∧
    (chunkRanges (write_chunked sampleWriter (List.replicate 1000000 0) okBackend).1)[0]?
      = some (0 * CHUNK_SIZE_FACTOR,
          min ((0 + 1) * CHUNK_SIZE_FACTOR) (List.replicate 1000000 (0 : Nat)).length - 1,
          (List.replicate 1000000 (0 : Nat)).length) ∧
    (∃ p, (chunkRanges
        (write_chunked sampleWriter (List.replicate 1000000 0) okBackend).1).getLast?
      = some p ∧ p.2.1 = (List.replicate 1000000 (0 : Nat)).length - 1) := by
  have hne : (List.replicate 1000000 (0 : Nat)) ≠ [] :=
    List.length_pos.mp (by rw [List.length_replicate]; omega)
  have h := claim_C3 Unit sampleWriter (List.replicate 1000000 0) okBackend
    { uploadUrl := "session-url", expirationDateTime := "2026-01-01" } hne rfl rfl
    (fun i _ => rfl)
  refine ⟨h.1, ?_, h.2.2.2.2.2.2⟩
  exact h.2.2.1 0 (by rw [List.length_replicate]; decide)

/-- Claim C5: temporal ordering — the session-creation request is always the
first request of a chunked write and every later request is a chunk upload,
so no separate commit request is ever issued; no chunk request is issued
unless session creation succeeded; chunk requests are issued strictly
sequentially in ascending offset order; and when every response succeeds the
final request of the write is the chunk whose inclusive end offset equals
total - 1. -/
theorem claim_C5 (β : Type) (w : OneDriveWriter β) (bs : Bytes) (b : BackendModel)
    (r : SessionResponse) :
    (∃ name, fileNameFromPath w.path = some name ∧
      (write_chunked w bs b).1.head?
        = some (Request.post w.path (sessionCreationRequestBody name)) ∧
      ∀ q ∈ (write_chunked w bs b).1.tail,
        ∃ u o e t c, q = Request.chunkUpload u o e t c) ∧
    (b.status 0 ≠ statusOK → chunkRanges (write_chunked w bs b).1 = []) ∧
    List.Chain' (fun p q : Nat × Nat × Nat => p.1 < q.1)
      (chunkRanges (write_chunked w bs b).1) ∧
    (bs ≠ [] → b.status 0 = statusOK → b.sessionBody = some r →
      (∀ i, 1 ≤ i → chunkUploadAccepted (b.status i) = true) →
      ∃ c, (write_chunked w bs b).1.getLast?
        = some (Request.chunkUpload r.uploadUrl
            (((bs.length + CHUNK_SIZE_FACTOR - 1) / CHUNK_SIZE_FACTOR - 1)
              * CHUNK_SIZE_FACTOR)
            (bs.length - 1) bs.length c)) := by
  refine ⟨?_, ?_, ?_, ?_⟩
  · by_cases hs : b.status 0 = statusOK
    · cases hb : b.sessionBody with
      | some r2 =>
        obtain ⟨name, m, hname, hm, htr⟩ := write_chunked_any_trace w bs b r2 hs hb
        refine ⟨name, hname, by rw [htr]; rfl, ?_⟩
        intro q hq
        rw [htr] at hq
        exact frameChunks_mem r2.uploadUrl bs.length _ 0 q (by simpa using hq)
      | none =>
        obtain ⟨name, hname, heq⟩ := write_chunked_session_bodyNone w bs b hs hb
        refine ⟨name, hname, by rw [heq]; rfl, ?_⟩
        intro q hq
        rw [heq] at hq
        simp at hq
    · obtain ⟨name, hname, heq⟩ := write_chunked_session_fail w bs b hs
      refine ⟨name, hname, by rw [heq]; rfl, ?_⟩
      intro q hq
      rw [heq] at hq
      simp at hq
  · intro hs
    obtain ⟨name, hname, heq⟩ := write_chunked_session_fail w bs b hs
    rw [heq]
    rfl
  · by_cases hs : b.status 0 = statusOK
    · cases hb : b.sessionBody with
      | some r2 =>
        obtain ⟨name, m, hname, hm, htr⟩ := write_chunked_any_trace w bs b r2 hs hb
        rw [htr, chunkRanges_cons_post]
        exact chunkRanges_frameChunks_chain r2.uploadUrl bs.length _ 0
      | none =>
        obtain ⟨name, hname, heq⟩ := write_chunked_session_bodyNone w bs b hs hb
        rw [heq]
        simp [chunkRanges]
    · obtain ⟨name, hname, heq⟩ := write_chunked_session_fail w bs b hs
      rw [heq]
      simp [chunkRanges]
  · intro hne hs hb hacc
    obtain ⟨name, hname, htr, hres⟩ := write_chunked_ok_trace w bs b r hs hb
      (fun k _ => hacc (1 + k) (by omega))
    have hlen := chunksOf_length CHUNK_SIZE_FACTOR chunkFactor_pos bs
    have hLpos : 0 < bs.length := List.length_pos.mpr hne
    have hnpos := numChunks_pos bs.length hLpos
    obtain ⟨m, hm⟩ : ∃ m,
        (bs.length + CHUNK_SIZE_FACTOR - 1) / CHUNK_SIZE_FACTOR = m + 1 :=
      ⟨(bs.length + CHUNK_SIZE_FACTOR - 1) / CHUNK_SIZE_FACTOR - 1, by omega⟩
    have hmn : m < (chunksOf CHUNK_SIZE_FACTOR bs).length := by rw [hlen, hm]; omega
    obtain ⟨c, hc, hf⟩ := frameChunks_getElem r.uploadUrl bs.length
      (chunksOf CHUNK_SIZE_FACTOR bs) 0 m hmn
    refine ⟨c, ?_⟩
    rw [htr, List.getLast?_eq_getElem?]
    have hlength : (Request.post w.path (sessionCreationRequestBody name)
        :: frameChunks r.uploadUrl bs.length (chunksOf CHUNK_SIZE_FACTOR bs) 0).length
        = m + 2 := by
      rw [List.length_cons, frameChunks_length, hlen, hm]
    rw [hlength]
    have hidx : m + 2 - 1 = m + 1 := by omega
    rw [hidx, List.getElem?_cons_succ]
    have hceil := ceil_mul_ge bs.length
    rw [hm] at hceil
    have hmul : (m + 1) * CHUNK_SIZE_FACTOR
        = m * CHUNK_SIZE_FACTOR + CHUNK_SIZE_FACTOR := by ring
    have e2 : min (0 + m * CHUNK_SIZE_FACTOR + CHUNK_SIZE_FACTOR) bs.length - 1
        = bs.length - 1 := by omega
    rw [e2] at hf
    have e1 : 0 + m * CHUNK_SIZE_FACTOR
        = ((bs.length + CHUNK_SIZE_FACTOR - 1) / CHUNK_SIZE_FACTOR - 1)
            * CHUNK_SIZE_FACTOR := by
      rw [hm]
      simp
    rw [e1] at hf
    exact hf

/-- Witness for claim C5: a rejected session creation issues no chunk
request, and a one-chunk all-success write ends with the chunk whose
inclusive end offset is total - 1. -/
theorem claim_C5_witness :
    chunkRanges (write_chunked sampleWriter [5] rejectBackend).1 = [] ∧
    (∃ c, (write_chunked sampleWriter [5] okBackend).1.getLast?
      = some (Request.chunkUpload
          ({ uploadUrl := "session-url", expirationDateTime := "2026-01-01" }
            : SessionResponse).uploadUrl
          (((([5] : Bytes).length + CHUNK_SIZE_FACTOR - 1) / CHUNK_SIZE_FACTOR - 1)
            * CHUNK_SIZE_FACTOR)
          (([5] : Bytes).length - 1) ([5] : Bytes).length c)) :=
  ⟨(claim_C5 Unit sampleWriter [5] rejectBackend
      { uploadUrl := "session-url", expirationDateTime := "2026-01-01" }).2.1 (by decide),
    (claim_C5 Unit sampleWriter [5] okBackend
      { uploadUrl := "session-url", expirationDateTime := "2026-01-01" }).2.2.2
      (by simp) rfl rfl (fun i _ => rfl)⟩

/-- Claim C10: loop-arithmetic safety — for every non-empty payload, on
every iteration k of the chunk loop the offset k * 327680 is strictly below
the payload length, the clipped end is at least offset + 1 (in particular
at least 1, so the subtraction end - 1 cannot underflow), and every issued
chunk range satisfies offset ≤ chunk_end ≤ L - 1. -/
theorem claim_C10 (β : Type) (w : OneDriveWriter β) (bs : Bytes) (b : BackendModel)
    (hne : bs ≠ []) :
    (∀ k, k < (chunksOf CHUNK_SIZE_FACTOR bs).length →
      k * CHUNK_SIZE_FACTOR < bs.length ∧
      k * CHUNK_SIZE_FACTOR + 1
        ≤ min (k * CHUNK_SIZE_FACTOR + CHUNK_SIZE_FACTOR) bs.length ∧
      1 ≤ min (k * CHUNK_SIZE_FACTOR + CHUNK_SIZE_FACTOR) bs.length ∧
      k * CHUNK_SIZE_FACTOR
        ≤ min (k * CHUNK_SIZE_FACTOR + CHUNK_SIZE_FACTOR) bs.length - 1 ∧
      min (k * CHUNK_SIZE_FACTOR + CHUNK_SIZE_FACTOR) bs.length - 1
        ≤ bs.length - 1) ∧
    (∀ p, p ∈ chunkRanges (write_chunked w bs b).1 →
      p.1 ≤ p.2.1 ∧ p.2.1 ≤ bs.length - 1) := by
  have hlen := chunksOf_length CHUNK_SIZE_FACTOR chunkFactor_pos bs
  have hLpos : 0 < bs.length := List.length_pos.mpr hne
  have hF := chunkFactor_pos
  constructor
  · intro k hk
    have hklt : k * CHUNK_SIZE_FACTOR < bs.length := by
      apply offset_lt_len bs.length k hLpos
      rw [← hlen]
      exact hk
    exact ⟨hklt, by omega, by omega, by omega, by omega⟩
  · intro p hp
    by_cases hs : b.status 0 = statusOK
    · cases hb : b.sessionBody with
      | some r2 =>
        obtain ⟨name, m, hname, hm, htr⟩ := write_chunked_any_trace w bs b r2 hs hb
        rw [htr, chunkRanges_cons_post] at hp
        obtain ⟨k, hk⟩ := List.mem_iff_getElem?.mp hp
        have hkl := (List.getElem?_eq_some_iff.mp hk).1
        rw [chunkRanges_frameChunks_length] at hkl
        have hkcs : k < (chunksOf CHUNK_SIZE_FACTOR bs).length := by
          have := List.length_take m (chunksOf CHUNK_SIZE_FACTOR bs)
          omega
        have h := chunkRanges_frameChunks_getElem r2.uploadUrl bs.length
          ((chunksOf CHUNK_SIZE_FACTOR bs).take m) 0 k hkl
        rw [h] at hk
        have hp2 := (Option.some_inj.mp hk).symm
        have hklt : k * CHUNK_SIZE_FACTOR < bs.length := by
          apply offset_lt_len bs.length k hLpos
          rw [← hlen]
          exact hkcs
        rw [hp2]
        constructor
        · show 0 + k * CHUNK_SIZE_FACTOR
            ≤ min (0 + k * CHUNK_SIZE_FACTOR + CHUNK_SIZE_FACTOR) bs.length - 1
          omega
        · show min (0 + k * CHUNK_SIZE_FACTOR + CHUNK_SIZE_FACTOR) bs.length - 1
            ≤ bs.length - 1
          omega
      | none =>
        obtain ⟨name, hname, heq⟩ := write_chunked_session_bodyNone w bs b hs hb
        rw [heq] at hp
        simp [chunkRanges] at hp
    · obtain ⟨name, hname, heq⟩ := write_chunked_session_fail w bs b hs
      rw [heq] at hp
      simp [chunkRanges] at hp

/-- Witness for claim C10 at the one-byte payload [5]. -/
theorem claim_C10_witness :
    0 * CHUNK_SIZE_FACTOR < ([5] : Bytes).length ∧
    (∀ p, p ∈ chunkRanges (write_chunked sampleWriter [5] okBackend).1 →
      p.1 ≤ p.2.1 ∧ p.2.1 ≤ ([5] : Bytes).length - 1) := by
  have h := claim_C10 Unit sampleWriter [5] okBackend (by simp)
  refine ⟨?_, h.2⟩
  have hk : (0 : Nat) < (chunksOf CHUNK_SIZE_FACTOR ([5] : Bytes)).length := by
    rw [chunksOf_length CHUNK_SIZE_FACTOR chunkFactor_pos]
    decide
  exact (h.1 0 hk).1

end OneDrive
